import Mathlib

/-!
Shallow embedding of the `bronzemarch` simulation crate
(`src/crates/simulation/src/{tick.rs, sites.rs, simulation.rs, tokens.rs}`).

Floating-point (`f32`/`f64`) quantities are embedded as exact rationals `ℚ`;
the few places where IEEE infinities matter (graph distances of disconnected
pairs, division by a zero distance) are modelled by an explicit extended
value type `FVal`.  Machine integers (`i32`, `i64`) are embedded as `ℤ`.
Slot-map keys (`SiteId`, `GoodId`, token type ids) are embedded as `ℕ`,
ordered the way the slot keys are.
-/

namespace Bronzemarch

/-- Rust `f32::round` / `f64::round`: round half away from zero. -/
def rustRound (q : ℚ) : ℤ :=
  if 0 ≤ q then ⌊q + 1/2⌋ else ⌈q - 1/2⌉

/-- Rust `f64::clamp(lo, hi)` on ordinary (non-NaN) values:
`if x < lo { lo } else if x > hi { hi } else { x }`. -/
def rclamp (x lo hi : ℚ) : ℚ :=
  if x < lo then lo else if x > hi then hi else x

/-- `fn lerp_f64(a, b, t) -> f64 { a + (b - a) * t }` from `tick.rs`. -/
def lerp_f64 (a b t : ℚ) : ℚ := a + (b - a) * t

/-- Rust `f32::signum` on ordinary values: `1.0` for positive or `+0.0`,
`-1.0` for negative. -/
def rsignum (q : ℚ) : ℚ := if q < 0 then -1 else 1

theorem rustRound_nonneg {q : ℚ} (h : 0 ≤ q) : 0 ≤ rustRound q := by
  unfold rustRound
  rw [if_pos h]
  positivity

theorem rclamp_mem {x lo hi : ℚ} (h : lo ≤ hi) :
    lo ≤ rclamp x lo hi ∧ rclamp x lo hi ≤ hi := by
  unfold rclamp
  split
  · exact ⟨le_refl _, h⟩
  · split
    · exact ⟨h, le_refl _⟩
    · constructor <;> [exact le_of_not_lt (by assumption); exact le_of_not_lt (by assumption)]

/-! ## Market economy (`tick_location_economy`, tick.rs lines 306-453)

The per-good state of a location's market
(`MarketGood` in simulation.rs). -/

structure MarketGood where
  stock : ℚ
  stock_delta : ℚ
  target_price : ℚ
  price : ℚ
  supply_base : ℚ
  supply_from_stock : ℚ
  supply_effective : ℚ
  demand_base : ℚ
  demand_effective : ℚ
  consumed : ℚ
  satisfaction : ℚ
  deriving Repr, DecidableEq

/-- `Market::new`: every good starts with `price`/`target_price` equal to the
good type's static base price, all other fields zero (Rust `Default`). -/
def MarketGood.init (basePrice : ℚ) : MarketGood where
  stock := 0
  stock_delta := 0
  target_price := basePrice
  price := basePrice
  supply_base := 0
  supply_from_stock := 0
  supply_effective := 0
  demand_base := 0
  demand_effective := 0
  consumed := 0
  satisfaction := 0

/-- `const GOODS_POPULATION_SCALE: f64 = 0.01;` -/
def GOODS_POPULATION_SCALE : ℚ := 1/100

/-- `const STOCK_SUPPLY_BONUS: f64 = 0.05;` -/
def STOCK_SUPPLY_BONUS : ℚ := 1/20

/-- `const PRICE_CONVERGENCE_SPEED: f64 = 0.1;` -/
def PRICE_CONVERGENCE_SPEED : ℚ := 1/10

/-- The "Calculate effective supply and demand" block of
`tick_location_economy` (tick.rs lines 388-402), for one good.
`prev` is `location.market.goods[good_id]` (the previous tick's market);
`g` is `new_market.goods[good_id]` after the token / RGO accumulation.
The statement order of the source is kept exactly: `supply_from_stock`
is read into `supply_effective` before the stock bonus is added to it. -/
def effectiveStep (prev g : MarketGood) : MarketGood :=
  let g := { g with supply_effective := g.supply_effective + g.supply_base }
  let g := { g with supply_effective := g.supply_effective + g.supply_from_stock }
  let g := { g with demand_effective := g.demand_effective + g.demand_base }
  let from_stock := prev.stock * STOCK_SUPPLY_BONUS
  { g with supply_from_stock := g.supply_from_stock + from_stock }

/-- The "Price calculations" block of `tick_location_economy`
(tick.rs lines 408-427) for one good. `basePrice` is `good_type.price`,
`prosperity` is `location.prosperity`. -/
def priceStep (prev : MarketGood) (basePrice prosperity : ℚ) (g : MarketGood) :
    MarketGood :=
  let sd_modifier :=
    rclamp ((g.demand_base - g.supply_effective) /
      (max (max g.supply_effective g.demand_effective) (1/10))) (-(3/4)) (3/4)
  let prosperity_modifier := max prosperity 0
  let target_price := basePrice * (1 + sd_modifier) * (1 + prosperity_modifier)
  let new_price := lerp_f64 prev.price target_price PRICE_CONVERGENCE_SPEED
  { g with target_price := target_price, price := new_price }

/-- The "Handle stock" block of `tick_location_economy`
(tick.rs lines 429-443) for one good. `population` is
`location.population` as recomputed in the same call. -/
def stockStep (prev : MarketGood) (population : ℤ) (g : MarketGood) : MarketGood :=
  let available := prev.stock + g.supply_base
  let consumed := min available g.demand_base
  let satisfaction :=
    if g.demand_base ≤ 0 then 1 else min (consumed / g.demand_base) 1
  let max_stock := (population : ℚ) * GOODS_POPULATION_SCALE * 10
  let new_stock := rclamp (available - consumed) 0 max_stock
  { g with consumed := consumed, satisfaction := satisfaction,
           stock := new_stock, stock_delta := new_stock - prev.stock }

/-- One good's complete daily recomputation inside `tick_location_economy`:
start from `Market::new`, accumulate the token-loop and RGO sums
(`supplyBase`, `demandBase` — arbitrary inputs here, the loops only ever
add into these two fields), then run the effective / price / stock blocks
in source order. -/
def tickGood (prev : MarketGood) (supplyBase demandBase basePrice prosperity : ℚ)
    (population : ℤ) : MarketGood :=
  let g := MarketGood.init basePrice
  let g := { g with supply_base := g.supply_base + supplyBase,
                    demand_base := g.demand_base + demandBase }
  stockStep prev population (priceStep prev basePrice prosperity (effectiveStep prev g))

theorem tickGood_stock_eq (prev : MarketGood)
    (supplyBase demandBase basePrice prosperity : ℚ) (population : ℤ) :
    (tickGood prev supplyBase demandBase basePrice prosperity population).stock =
      rclamp ((prev.stock + supplyBase) - min (prev.stock + supplyBase) demandBase)
        0 ((population : ℚ) * GOODS_POPULATION_SCALE * 10) := by
  simp [tickGood, stockStep, priceStep, effectiveStep, MarketGood.init]

theorem tickGood_supply_effective_eq (prev : MarketGood)
    (supplyBase demandBase basePrice prosperity : ℚ) (population : ℤ) :
    (tickGood prev supplyBase demandBase basePrice prosperity population).supply_effective
      = supplyBase := by
  simp [tickGood, stockStep, priceStep, effectiveStep, MarketGood.init]

theorem tickGood_supply_from_stock_eq (prev : MarketGood)
    (supplyBase demandBase basePrice prosperity : ℚ) (population : ℤ) :
    (tickGood prev supplyBase demandBase basePrice prosperity population).supply_from_stock
      = prev.stock * STOCK_SUPPLY_BONUS := by
  simp [tickGood, stockStep, priceStep, effectiveStep, MarketGood.init]

theorem tickGood_target_price_eq (prev : MarketGood)
    (supplyBase demandBase basePrice prosperity : ℚ) (population : ℤ) :
    (tickGood prev supplyBase demandBase basePrice prosperity population).target_price =
      basePrice *
        (1 + rclamp ((demandBase - supplyBase) /
          (max (max supplyBase demandBase) (1/10))) (-(3/4)) (3/4)) *
        (1 + max prosperity 0) := by
  simp [tickGood, stockStep, priceStep, effectiveStep, MarketGood.init]

theorem tickGood_price_eq (prev : MarketGood)
    (supplyBase demandBase basePrice prosperity : ℚ) (population : ℤ) :
    (tickGood prev supplyBase demandBase basePrice prosperity population).price =
      lerp_f64 prev.price
        ((tickGood prev supplyBase demandBase basePrice prosperity population).target_price)
        PRICE_CONVERGENCE_SPEED := by
  simp [tickGood, stockStep, priceStep, effectiveStep, MarketGood.init]

/-- C1: in the daily market recomputation the stock bonus
`previous_stock × STOCK_SUPPLY_BONUS` is written into `supply_from_stock`
only after `supply_from_stock` (still zero) has been added into
`supply_effective`, so the effective supply used for pricing equals the
base supply alone.  At the concrete input `previous_stock = 1`,
`supply_base = 0` the claimed equation
`supply_effective = supply_base + supply_from_stock` fails
(`0 ≠ 0 + 1/20`) and `supply_effective` is not strictly greater than
`supply_base` despite the positive previous stock. -/
theorem C1_supply_effective_misses_stock_bonus :
    (tickGood { MarketGood.init 10 with stock := 1 } 0 0 10 0 0).supply_from_stock = 1/20 ∧
    (tickGood { MarketGood.init 10 with stock := 1 } 0 0 10 0 0).supply_effective = 0 ∧
    (tickGood { MarketGood.init 10 with stock := 1 } 0 0 10 0 0).supply_effective ≠
      (tickGood { MarketGood.init 10 with stock := 1 } 0 0 10 0 0).supply_base +
      (tickGood { MarketGood.init 10 with stock := 1 } 0 0 10 0 0).supply_from_stock ∧
    ¬ (tickGood { MarketGood.init 10 with stock := 1 } 0 0 10 0 0).supply_base <
      (tickGood { MarketGood.init 10 with stock := 1 } 0 0 10 0 0).supply_effective := by
  refine ⟨?_, ?_, ?_, ?_⟩ <;>
    simp [tickGood, stockStep, priceStep, effectiveStep, MarketGood.init,
      STOCK_SUPPLY_BONUS]

/-- C2: after a day-boundary market recomputation the new stock lies in
`[0, population × 0.01 × 10]`, for arbitrary nonnegative base demand and
supply and nonnegative population. -/
theorem C2_stock_within_capacity (prev : MarketGood)
    (supplyBase demandBase basePrice prosperity : ℚ) (population : ℤ)
    (hd : 0 ≤ demandBase) (hs : 0 ≤ supplyBase) (hp : 0 ≤ population) :
    0 ≤ (tickGood prev supplyBase demandBase basePrice prosperity population).stock ∧
    (tickGood prev supplyBase demandBase basePrice prosperity population).stock ≤
      (population : ℚ) * GOODS_POPULATION_SCALE * 10 := by
  rw [tickGood_stock_eq]
  have hpq : (0 : ℚ) ≤ (population : ℚ) := Int.cast_nonneg.mpr hp
  have hmax : (0 : ℚ) ≤ (population : ℚ) * GOODS_POPULATION_SCALE * 10 := by
    have : (0:ℚ) < GOODS_POPULATION_SCALE := by norm_num [GOODS_POPULATION_SCALE]
    positivity
  exact rclamp_mem hmax

theorem C2_stock_within_capacity_witness :
    0 ≤ (tickGood (MarketGood.init 10) 5 3 10 0 7).stock ∧
    (tickGood (MarketGood.init 10) 5 3 10 0 7).stock ≤
      ((7 : ℤ) : ℚ) * GOODS_POPULATION_SCALE * 10 :=
  C2_stock_within_capacity (MarketGood.init 10) 5 3 10 0 7
    (by norm_num) (by norm_num) (by norm_num)

/-- C10: for a good with strictly positive static base price, the daily
recomputation keeps the market price strictly positive: the supply/demand
modifier is clamped to `[-0.75, 0.75]` and the prosperity factor is at
least `1`, so the target price is at least `basePrice / 4`, and the
exponential-smoothing step from a positive current price toward the
positive target stays positive. -/
theorem C10_price_stays_positive (prev : MarketGood)
    (supplyBase demandBase basePrice prosperity : ℚ) (population : ℤ)
    (hbp : 0 < basePrice) (hprev : 0 < prev.price) :
    basePrice / 4 ≤
      (tickGood prev supplyBase demandBase basePrice prosperity population).target_price ∧
    0 < (tickGood prev supplyBase demandBase basePrice prosperity population).price := by
  have hsd := @rclamp_mem
    ((demandBase - supplyBase) / (max (max supplyBase demandBase) (1/10)))
    (-(3/4)) (3/4) (by norm_num)
  set sd := rclamp ((demandBase - supplyBase) /
    (max (max supplyBase demandBase) (1/10))) (-(3/4)) (3/4) with hsddef
  have h1 : (1/4 : ℚ) ≤ 1 + sd := by linarith [hsd.1]
  have h2 : (1 : ℚ) ≤ 1 + max prosperity 0 := by
    have := le_max_right prosperity (0 : ℚ)
    linarith
  have htarget : basePrice / 4 ≤
      (tickGood prev supplyBase demandBase basePrice prosperity population).target_price := by
    rw [tickGood_target_price_eq, ← hsddef]
    nlinarith [mul_le_mul h1 h2 (by norm_num) (by linarith : (0:ℚ) ≤ 1 + sd)]
  refine ⟨htarget, ?_⟩
  rw [tickGood_price_eq]
  unfold lerp_f64 PRICE_CONVERGENCE_SPEED
  nlinarith [htarget]

theorem C10_price_stays_positive_witness :
    (10 : ℚ) / 4 ≤ (tickGood (MarketGood.init 10) 5 3 10 0 7).target_price ∧
    0 < (tickGood (MarketGood.init 10) 5 3 10 0 7).price :=
  C10_price_stays_positive (MarketGood.init 10) 5 3 10 0 7
    (by norm_num) (by norm_num [MarketGood.init])

/-! ## Grid coordinates (`GridCoord`, simulation.rs lines 631-699)

Site ids are embedded as `ℕ` with the slot-key order.  The `assert!` in
`GridCoord::between` is modelled by returning `none` (panic) when the
parameter is outside `[0,1]`. -/

inductive GridCoord where
  | At (site : ℕ)
  | Between (a b : ℕ) (t : ℚ)
  deriving Repr, DecidableEq

/-- `GridCoord::between` (simulation.rs lines 655-662). -/
def GridCoord.between (a b : ℕ) (t : ℚ) : Option GridCoord :=
  if ¬ (0 ≤ t ∧ t ≤ 1) then none
  else if a = b then some (.At a)
  else if a < b then some (.Between a b t)
  else some (.Between b a (1 - t))

/-- `GridCoord::with_triple` (simulation.rs lines 638-649). -/
def GridCoord.with_triple (a b : ℕ) (t : ℚ) : Option GridCoord :=
  if t = 0 then some (.At a)
  else if t = 1 then some (.At b)
  else
    let start := min a b
    let e := max a b
    let t := if start = a then t else 1 - t
    GridCoord.between start e t

/-- C5: `GridCoord::between` is canonicalizing: for distinct sites and
`t ∈ [0,1]`, `between a b t = between b a (1-t)`, and the produced
`Between` value carries the lower site id as its first endpoint. -/
theorem C5_between_canonical (a b : ℕ) (t : ℚ)
    (hab : a ≠ b) (h0 : 0 ≤ t) (h1 : t ≤ 1) :
    GridCoord.between a b t = GridCoord.between b a (1 - t) ∧
    ∃ s : ℚ, GridCoord.between a b t =
      some (GridCoord.Between (min a b) (max a b) s) := by
  have hrange : ¬ ¬ (0 ≤ t ∧ t ≤ 1) := not_not_intro ⟨h0, h1⟩
  have hrange' : ¬ ¬ (0 ≤ 1 - t ∧ 1 - t ≤ 1) := not_not_intro ⟨by linarith, by linarith⟩
  rcases lt_or_gt_of_ne hab with hlt | hgt
  · constructor
    · simp only [GridCoord.between, if_neg hrange, if_neg hrange',
        if_neg hab, if_neg (Ne.symm hab), if_pos hlt, if_neg (not_lt_of_gt hlt)]
      norm_num
    · refine ⟨t, ?_⟩
      simp only [GridCoord.between, if_neg hrange, if_neg hab, if_pos hlt]
      rw [min_eq_left hlt.le, max_eq_right hlt.le]
  · constructor
    · simp only [GridCoord.between, if_neg hrange, if_neg hrange',
        if_neg hab, if_neg (Ne.symm hab), if_neg (not_lt_of_gt hgt),
        if_pos hgt]
    · refine ⟨1 - t, ?_⟩
      simp only [GridCoord.between, if_neg hrange, if_neg hab,
        if_neg (not_lt_of_gt hgt)]
      rw [min_eq_right hgt.le, max_eq_left hgt.le]

theorem C5_between_canonical_witness :
    GridCoord.between 2 1 (1/3) = GridCoord.between 1 2 (1 - 1/3) ∧
    ∃ s : ℚ, GridCoord.between 2 1 (1/3) =
      some (GridCoord.Between (min 2 1) (max 2 1) s) :=
  C5_between_canonical 2 1 (1/3) (by norm_num) (by norm_num) (by norm_num)

/-! ## Trade resolution (`trade::resolve_trade`, tick.rs lines 1173-1238)

A trader's per-good record (`TraderGood`) and the market goods are walked
in the fixed `goods.keys()` order; the goods of one trade are embedded as
a list of `(TraderGood, MarketGood)` pairs in that order, the trader's
cash threading through the loops left to right exactly as the source
mutates `trader.cash`. -/

structure TraderGood where
  quantity : ℚ
  can_sell : Bool
  can_buy : Bool
  deriving Repr, DecidableEq

/-- `f64::MAX`, the value used by the zero-price guard in the buy loop. -/
def maxF64 : ℚ := 2^1024 - 2^971

/-- One iteration of the "Perform sales" loop (tick.rs lines 1183-1198). -/
def sellStep (cash : ℚ) (tg : TraderGood) (mg : MarketGood) :
    ℚ × TraderGood × MarketGood :=
  if !tg.can_sell then (cash, tg, mg)
  else
    let quantity := tg.quantity
    let value := mg.price * quantity
    (cash + value,
     { tg with quantity := tg.quantity - quantity },
     { mg with stock := mg.stock + quantity,
               stock_delta := mg.stock_delta + quantity })

/-- The full sales loop over the goods in key order. -/
def sellPhase : ℚ → List (TraderGood × MarketGood) → ℚ × List (TraderGood × MarketGood)
  | cash, [] => (cash, [])
  | cash, (tg, mg) :: rest =>
      let s := sellStep cash tg mg
      let r := sellPhase s.1 rest
      (r.1, (s.2.1, s.2.2) :: r.2)

/-- The per-good buy weight (tick.rs lines 1203-1213):
`(1/price) × want_weight × exists_weight`. -/
def goodWeight (tg : TraderGood) (mg : MarketGood) : ℚ :=
  let want_weight : ℚ := if tg.can_buy then 1 else 0
  let exists_weight : ℚ := if mg.stock ≤ 0 then 0 else 1
  let price_weight : ℚ := 1 / mg.price
  price_weight * want_weight * exists_weight

/-- The quantity bought of one good in the buy loop
(tick.rs lines 1219-1229): `min(can_afford, market stock)` with the
zero-price guard `can_afford = f64::MAX`. -/
def buyAmount (totalWeight cash w : ℚ) (mg : MarketGood) : ℚ :=
  let prop := w / totalWeight
  let cash_allocated := min (cash * prop) cash
  let can_afford := if mg.price = 0 then maxF64 else cash_allocated / mg.price
  min can_afford mg.stock

/-- One iteration of the "Actually effectuate the transaction" loop
(tick.rs lines 1217-1236). -/
def buyStep (totalWeight cash w : ℚ) (tg : TraderGood) (mg : MarketGood) :
    ℚ × TraderGood × MarketGood :=
  let bought := buyAmount totalWeight cash w mg
  let mg' := { mg with stock := mg.stock - bought,
                       stock_delta := mg.stock_delta - bought }
  let tg' := { tg with quantity := tg.quantity + bought }
  (max (cash - bought * mg'.price) 0, tg', mg')

/-- The full buy loop, threading the trader's cash through the goods. -/
def buyPhase (totalWeight : ℚ) :
    ℚ → List (ℚ × TraderGood × MarketGood) → ℚ × List (TraderGood × MarketGood)
  | cash, [] => (cash, [])
  | cash, (w, tg, mg) :: rest =>
      let s := buyStep totalWeight cash w tg mg
      let r := buyPhase totalWeight s.1 rest
      (r.1, (s.2.1, s.2.2) :: r.2)

/-- `resolve_trade` for one trader: sales, weight computation over the
post-sale market, then the guarded buy pass. -/
def resolve_trade (cash : ℚ) (goods : List (TraderGood × MarketGood)) :
    ℚ × List (TraderGood × MarketGood) :=
  let s := sellPhase cash goods
  let weighted := s.2.map (fun p => (goodWeight p.1 p.2, p.1, p.2))
  let total_weight := (weighted.map (fun x => x.1)).sum
  if total_weight ≠ 0 then buyPhase total_weight s.1 weighted else (s.1, s.2)

/-- C8: a trader with cash 100 carrying nothing, against a market with one
desired good priced 10 with stock 3, ends the trade holding exactly 3
units (capped by the stock) with cash 70, and the market's stock is 0. -/
theorem C8_trade_scenario :
    (resolve_trade 100
      [(⟨0, true, true⟩, { MarketGood.init 10 with stock := 3 })]).1 = 70 ∧
    (resolve_trade 100
      [(⟨0, true, true⟩, { MarketGood.init 10 with stock := 3 })]).2.map
        (fun p => (p.1.quantity, p.2.stock)) = [(3, 0)] := by
  constructor <;>
    norm_num [resolve_trade, sellPhase, sellStep, goodWeight, buyPhase,
      buyStep, buyAmount, MarketGood.init, min_def, max_def]

/-- C9: invariants of the buy pass: the bought quantity never exceeds the
market stock at the moment of purchase (so the market stock never goes
negative from buying), the trader's cash stays nonnegative through the
whole pass, and a zero-priced good makes the guard branch hand the trader
the entire market stock at zero cost. -/
theorem C9_buy_phase_invariants (totalWeight cash w : ℚ)
    (tg : TraderGood) (mg : MarketGood)
    (cash0 : ℚ) (l : List (ℚ × TraderGood × MarketGood))
    (hcash : 0 ≤ cash) (hcash0 : 0 ≤ cash0) (hmax : mg.stock ≤ maxF64) :
    buyAmount totalWeight cash w mg ≤ mg.stock ∧
    0 ≤ ((buyStep totalWeight cash w tg mg).2.2).stock ∧
    0 ≤ (buyStep totalWeight cash w tg mg).1 ∧
    (mg.price = 0 → buyAmount totalWeight cash w mg = mg.stock ∧
      (buyStep totalWeight cash w tg mg).1 = cash) ∧
    0 ≤ (buyPhase totalWeight cash0 l).1 := by
  refine ⟨min_le_right _ _, ?_, le_max_right _ _, ?_, ?_⟩
  · have h1 : buyAmount totalWeight cash w mg ≤ mg.stock := min_le_right _ _
    have h2 : ((buyStep totalWeight cash w tg mg).2.2).stock =
        mg.stock - buyAmount totalWeight cash w mg := rfl
    rw [h2]
    linarith
  · intro hp
    have hb : buyAmount totalWeight cash w mg = mg.stock := by
      simp [buyAmount, hp, min_eq_right hmax]
    refine ⟨hb, ?_⟩
    simp [buyStep, hb, hp, max_eq_left hcash]
  · induction l generalizing cash0 with
    | nil => exact hcash0
    | cons hd tl ih =>
        obtain ⟨w', tg', mg'⟩ := hd
        exact ih _ (le_max_right _ 0)

theorem C9_buy_phase_invariants_witness :
    buyAmount 1 100 1 { MarketGood.init 10 with stock := 3 } ≤
      ({ MarketGood.init 10 with stock := 3 } : MarketGood).stock ∧
    0 ≤ ((buyStep 1 100 1 ⟨0, true, true⟩
      { MarketGood.init 10 with stock := 3 }).2.2).stock ∧
    0 ≤ (buyStep 1 100 1 ⟨0, true, true⟩
      { MarketGood.init 10 with stock := 3 }).1 ∧
    (({ MarketGood.init 10 with stock := 3 } : MarketGood).price = 0 →
      buyAmount 1 100 1 { MarketGood.init 10 with stock := 3 } =
        ({ MarketGood.init 10 with stock := 3 } : MarketGood).stock ∧
      (buyStep 1 100 1 ⟨0, true, true⟩
        { MarketGood.init 10 with stock := 3 }).1 = 100) ∧
    0 ≤ (buyPhase 1 50 [(1, ⟨0, true, true⟩, MarketGood.init 5)]).1 :=
  C9_buy_phase_invariants 1 100 1 ⟨0, true, true⟩
    { MarketGood.init 10 with stock := 3 } 50
    [(1, ⟨0, true, true⟩, MarketGood.init 5)]
    (by norm_num) (by norm_num) (by norm_num [maxF64, MarketGood.init])

/-! ## Tokens and location creation
(`Tokens` in tokens.rs, `process_entity_create_commands` in tick.rs
lines 769-907, population recomputation in tick.rs lines 314-318)

Token type tags are embedded as `ℕ` ids; a token container is the list of
its `(type, size)` stacks. -/

inductive TokenCategory where
  | Building
  | Pop
  deriving Repr, DecidableEq

/-- The static token-type catalog: type id to category. -/
def lookupType (types : List (ℕ × TokenCategory)) (tag : ℕ) : Option TokenCategory :=
  (types.find? (fun p => p.1 = tag)).map Prod.snd

/-- `Tokens::add_token`: merge into the first existing stack of the same
type (`find_token_with_characteristics`), else insert a new stack. -/
def add_token (c : List (ℕ × ℤ)) (typ : ℕ) (size : ℤ) : List (ℕ × ℤ) :=
  match c with
  | [] => [(typ, size)]
  | (t, s) :: rest =>
      if t = typ then (t, s + size) :: rest
      else (t, s) :: add_token rest typ size

/-- The token-container construction in the location arm of
`process_entity_create_commands` (tick.rs lines 841-852): each create
with a known token type is added, unknown types are logged and skipped. -/
def createLocationTokens (types : List (ℕ × TokenCategory))
    (creates : List (ℕ × ℤ)) : List (ℕ × ℤ) :=
  creates.foldl
    (fun c cr =>
      match lookupType types cr.1 with
      | some _ => add_token c cr.1 cr.2
      | none => c) []

/-- The location record inserted by `process_entity_create_commands`
(tick.rs lines 863-872): the `population` field is initialized to `0`. -/
structure LocationDataE where
  population : ℤ
  tokens : List (ℕ × ℤ)
  deriving Repr, DecidableEq

def createLocation (types : List (ℕ × TokenCategory))
    (creates : List (ℕ × ℤ)) : LocationDataE where
  population := 0
  tokens := createLocationTokens types creates

/-- `Tokens::count_size`: sum of the sizes of the container's tokens of
the given category. -/
def count_size (types : List (ℕ × TokenCategory)) (c : List (ℕ × ℤ))
    (category : TokenCategory) : ℤ :=
  ((c.filter (fun tok => lookupType types tok.1 == some category)).map
    Prod.snd).sum

/-- The population recomputation at the head of `tick_location_economy`
(tick.rs line 318), which runs every tick: `population =
Tokens::count_size(tokens, TokenCategory::Pop)`. -/
def recomputePopulation (types : List (ℕ × TokenCategory))
    (loc : LocationDataE) : ℤ :=
  count_size types loc.tokens TokenCategory.Pop

theorem count_size_cons (types : List (ℕ × TokenCategory)) (t : ℕ) (s : ℤ)
    (rest : List (ℕ × ℤ)) (category : TokenCategory) :
    count_size types ((t, s) :: rest) category =
      (if lookupType types t = some category then s else 0) +
        count_size types rest category := by
  by_cases hc : lookupType types t = some category <;>
    simp [count_size, List.filter_cons, hc]

theorem count_size_add_token (types : List (ℕ × TokenCategory))
    (c : List (ℕ × ℤ)) (typ : ℕ) (size : ℤ) (category : TokenCategory)
    (h : lookupType types typ = some category) :
    count_size types (add_token c typ size) category =
      count_size types c category + size := by
  induction c with
  | nil => simp [add_token, count_size, h]
  | cons hd tl ih =>
      obtain ⟨t, s⟩ := hd
      by_cases ht : t = typ
      · subst ht
        rw [show add_token ((t, s) :: tl) t size = (t, s + size) :: tl from by
          simp [add_token]]
        rw [count_size_cons, count_size_cons, if_pos h, if_pos h]
        ring
      · rw [show add_token ((t, s) :: tl) typ size =
            (t, s) :: add_token tl typ size from by simp [add_token, ht]]
        rw [count_size_cons, count_size_cons, ih]
        ring

theorem count_size_createLocationTokens (types : List (ℕ × TokenCategory))
    (creates : List (ℕ × ℤ))
    (h : ∀ cr ∈ creates, lookupType types cr.1 = some TokenCategory.Pop) :
    count_size types (createLocationTokens types creates) TokenCategory.Pop =
      (creates.map Prod.snd).sum := by
  suffices hgen : ∀ c : List (ℕ × ℤ),
      count_size types
        (creates.foldl
          (fun c cr =>
            match lookupType types cr.1 with
            | some _ => add_token c cr.1 cr.2
            | none => c) c) TokenCategory.Pop =
        count_size types c TokenCategory.Pop + (creates.map Prod.snd).sum by
    have := hgen []
    simpa [createLocationTokens, count_size] using this
  induction creates with
  | nil => intro c; simp
  | cons hd tl ih =>
      intro c
      have hhd := h hd (List.mem_cons_self hd tl)
      have htl : ∀ cr ∈ tl, lookupType types cr.1 = some TokenCategory.Pop :=
        fun cr hcr => h cr (List.mem_cons_of_mem hd hcr)
      simp only [List.foldl_cons, List.map_cons, List.sum_cons, hhd]
      rw [ih htl (add_token c hd.1 hd.2),
        count_size_add_token types c hd.1 hd.2 TokenCategory.Pop hhd]
      ring

/-- C3 counterexample: a location created with a single pop token of known
type and size 5 has `population = 0` immediately after the creation
command — not the claimed token-size sum 5. -/
theorem C3_population_zero_at_creation :
    (createLocation [(0, TokenCategory.Pop)] [(0, 5)]).population = 0 ∧
    ((([(0, 5)] : List (ℕ × ℤ)).map Prod.snd).sum = 5) ∧
    (createLocation [(0, TokenCategory.Pop)] [(0, 5)]).population ≠ 5 := by
  refine ⟨rfl, by decide, by decide⟩

/-- C3 (amended): immediately after the creation command the location's
`population` field is `0`; the population recomputation that
`tick_location_economy` performs on every tick (day boundary or not) then
yields exactly the sum of the created pop-token sizes. -/
theorem C3_population_after_recompute (types : List (ℕ × TokenCategory))
    (creates : List (ℕ × ℤ))
    (h : ∀ cr ∈ creates, lookupType types cr.1 = some TokenCategory.Pop) :
    (createLocation types creates).population = 0 ∧
    recomputePopulation types (createLocation types creates) =
      (creates.map Prod.snd).sum :=
  ⟨rfl, count_size_createLocationTokens types creates h⟩

theorem C3_population_after_recompute_witness :
    (createLocation [(0, TokenCategory.Pop)] [(0, 5), (0, 2)]).population = 0 ∧
    recomputePopulation [(0, TokenCategory.Pop)]
      (createLocation [(0, TokenCategory.Pop)] [(0, 5), (0, 2)]) =
      ((([(0, 5), (0, 2)] : List (ℕ × ℤ)).map Prod.snd).sum) :=
  C3_population_after_recompute [(0, TokenCategory.Pop)] [(0, 5), (0, 2)]
    (by decide)

/-! ## Influence propagation (`propagate_influences`, sites.rs lines 161-212)

`InfluenceKind` has the single variant `Market`; the Rust-derived `Ord`
on `InfluenceType` is lexicographic on `(kind, source)`, which with a
single kind reduces to the order of the source id, embedded as `ℕ`. -/

inductive InfluenceKind where
  | Market
  deriving Repr, DecidableEq

structure InfluenceType where
  kind : InfluenceKind
  source : ℕ
  deriving Repr, DecidableEq

/-- A site as `propagate_influences` sees it: its neighbour list (with
edge distances) and its current influence list. -/
structure SiteE where
  neighbours : List (ℕ × ℚ)
  influences : List (InfluenceType × ℤ)
  deriving Repr, DecidableEq

structure SitesE where
  entries : List (ℕ × SiteE)
  distances : List ((ℕ × ℕ) × ℚ)
  deriving Repr, DecidableEq

def neighboursOf (sites : SitesE) (id : ℕ) : List (ℕ × ℚ) :=
  ((sites.entries.find? (fun p => p.1 = id)).map (fun p => p.2.neighbours)).getD []

def influencesOf (sites : SitesE) (id : ℕ) : List (InfluenceType × ℤ) :=
  ((sites.entries.find? (fun p => p.1 = id)).map (fun p => p.2.influences)).getD []

/-- The inner `decay` function (sites.rs lines 166-173):
`(x - x * speed).round().max(0.) as i32` with `speed = 0.3` for Market.
The `distance` parameter is accepted and ignored, as in the source. -/
def decay (kind : InfluenceKind) (x : ℤ) (_distance : ℚ) : ℤ :=
  let speed : ℚ := match kind with | .Market => 3/10
  let loss := (x : ℚ) * speed
  max (rustRound ((x : ℚ) - loss)) 0

/-- The contribution list accumulated for one site (sites.rs lines
176-189): the directly-sourced contributions
(`sources.get(site_id).unwrap_or_default()`), then for each neighbour
every entry of that neighbour's current influence list, decayed, kept
only when strictly positive. -/
def contributions (sites : SitesE) (sources : List (ℕ × List (InfluenceType × ℤ)))
    (site_id : ℕ) : List (InfluenceType × ℤ) :=
  let from_source :=
    ((sources.find? (fun p => p.1 = site_id)).map Prod.snd).getD []
  from_source ++
    (neighboursOf sites site_id).flatMap (fun nd =>
      (influencesOf sites nd.1).filterMap (fun inf =>
        let propagated := decay inf.1.kind inf.2 nd.2
        if propagated > 0 then some (inf.1, propagated) else none))

/-- One insertion into the sorted `combined` vector (sites.rs lines
196-200): `binary_search_by_key` on the key finds an existing entry
(update it with `max`) or the sorted insertion position. -/
def combineInsert (combined : List (InfluenceType × ℤ)) (typ : InfluenceType)
    (amt : ℤ) : List (InfluenceType × ℤ) :=
  match combined with
  | [] => [(typ, amt)]
  | (t, a) :: rest =>
      if typ.source = t.source then (t, max a amt) :: rest
      else if typ.source < t.source then (typ, amt) :: (t, a) :: rest
      else (t, a) :: combineInsert rest typ amt

/-- The "Combine contributions" fold (sites.rs lines 193-201). -/
def combine (contribs : List (InfluenceType × ℤ)) : List (InfluenceType × ℤ) :=
  contribs.foldl (fun c p => combineInsert c p.1 p.2) []

/-- `propagate_influences`: every site's influence list is replaced by the
combined contributions, all computed from the pre-pass state. -/
def propagate_influences (sites : SitesE)
    (sources : List (ℕ × List (InfluenceType × ℤ))) : SitesE where
  entries := sites.entries.map (fun p =>
    (p.1, { p.2 with influences := combine (contributions sites sources p.1) }))
  distances := sites.distances

/-- `max` on `Option ℤ` with `none` as identity, the specification-side
combination of contributions. -/
def omax : Option ℤ → Option ℤ → Option ℤ
  | none, b => b
  | some a, none => some a
  | some a, some b => some (max a b)

def lookupVal (typ : InfluenceType) (l : List (InfluenceType × ℤ)) : Option ℤ :=
  (l.find? (fun p => p.1.source = typ.source)).map Prod.snd

def amountsAt (typ : InfluenceType) (l : List (InfluenceType × ℤ)) : List ℤ :=
  (l.filter (fun p => p.1.source = typ.source)).map Prod.snd

/-- The maximum contribution carried for a `(kind, source)` key, `none`
when no contribution carries that key. -/
def maxContribution (typ : InfluenceType) (l : List (InfluenceType × ℤ)) :
    Option ℤ :=
  (amountsAt typ l).foldl (fun o x => omax o (some x)) none

def srcLt : InfluenceType × ℤ → InfluenceType × ℤ → Prop :=
  fun p q => p.1.source < q.1.source

theorem omax_none_right (a : Option ℤ) : omax a none = a := by
  cases a <;> rfl

theorem omax_assoc (a b c : Option ℤ) :
    omax (omax a b) c = omax a (omax b c) := by
  cases a <;> cases b <;> cases c <;> simp [omax, max_assoc]

theorem mem_combineInsert_source (acc : List (InfluenceType × ℤ))
    (t : InfluenceType) (a : ℤ) (x : InfluenceType × ℤ)
    (hx : x ∈ combineInsert acc t a) :
    x.1.source = t.source ∨ ∃ y ∈ acc, x.1.source = y.1.source := by
  induction acc with
  | nil =>
      simp [combineInsert] at hx
      subst hx
      exact Or.inl rfl
  | cons hd tl ih =>
      obtain ⟨t', a'⟩ := hd
      by_cases h1 : t.source = t'.source
      · rw [combineInsert, if_pos h1] at hx
        rcases List.mem_cons.mp hx with h | h
        · subst h
          exact Or.inr ⟨(t', a'), List.mem_cons_self _ _, rfl⟩
        · exact Or.inr ⟨x, List.mem_cons_of_mem _ h, rfl⟩
      · rw [combineInsert, if_neg h1] at hx
        by_cases h2 : t.source < t'.source
        · rw [if_pos h2] at hx
          rcases List.mem_cons.mp hx with h | h
          · subst h
            exact Or.inl rfl
          · exact Or.inr ⟨x, h, rfl⟩
        · rw [if_neg h2] at hx
          rcases List.mem_cons.mp hx with h | h
          · subst h
            exact Or.inr ⟨(t', a'), List.mem_cons_self _ _, rfl⟩
          · rcases ih h with h3 | ⟨y, hy, h3⟩
            · exact Or.inl h3
            · exact Or.inr ⟨y, List.mem_cons_of_mem _ hy, h3⟩

theorem combineInsert_pairwise (acc : List (InfluenceType × ℤ))
    (t : InfluenceType) (a : ℤ) (h : acc.Pairwise srcLt) :
    (combineInsert acc t a).Pairwise srcLt := by
  induction acc with
  | nil => simp [combineInsert, List.pairwise_singleton]
  | cons hd tl ih =>
      obtain ⟨t', a'⟩ := hd
      rw [List.pairwise_cons] at h
      obtain ⟨hhd, htl⟩ := h
      by_cases h1 : t.source = t'.source
      · rw [combineInsert, if_pos h1]
        exact List.pairwise_cons.mpr ⟨hhd, htl⟩
      · rw [combineInsert, if_neg h1]
        by_cases h2 : t.source < t'.source
        · rw [if_pos h2]
          refine List.pairwise_cons.mpr ⟨?_, List.pairwise_cons.mpr ⟨hhd, htl⟩⟩
          intro x hx
          rcases List.mem_cons.mp hx with h3 | h3
          · subst h3
            exact h2
          · exact h2.trans (hhd x h3)
        · rw [if_neg h2]
          refine List.pairwise_cons.mpr ⟨?_, ih htl⟩
          intro x hx
          rcases mem_combineInsert_source tl t a x hx with h3 | ⟨y, hy, h3⟩
          · have : t'.source < t.source :=
              lt_of_le_of_ne (le_of_not_lt h2) (Ne.symm h1)
            unfold srcLt
            rw [h3]
            exact this
          · unfold srcLt
            rw [h3]
            exact hhd y hy

theorem lookupVal_eq_none (typ : InfluenceType) (l : List (InfluenceType × ℤ))
    (h : ∀ x ∈ l, typ.source ≠ x.1.source) : lookupVal typ l = none := by
  unfold lookupVal
  rw [List.find?_eq_none.mpr]
  · rfl
  · intro x hx
    simpa using fun hc => h x hx hc.symm

theorem lookupVal_cons (typ t : InfluenceType) (a : ℤ)
    (rest : List (InfluenceType × ℤ)) :
    lookupVal typ ((t, a) :: rest) =
      if typ.source = t.source then some a else lookupVal typ rest := by
  unfold lookupVal
  by_cases h : typ.source = t.source
  · rw [List.find?_cons_of_pos _ (by simpa using h.symm), if_pos h]
    rfl
  · rw [List.find?_cons_of_neg _ (by simpa using fun hc => h hc.symm), if_neg h]

theorem lookupVal_combineInsert (acc : List (InfluenceType × ℤ))
    (t : InfluenceType) (a : ℤ) (typ : InfluenceType)
    (hs : acc.Pairwise srcLt) :
    lookupVal typ (combineInsert acc t a) =
      if typ.source = t.source then omax (lookupVal typ acc) (some a)
      else lookupVal typ acc := by
  induction acc with
  | nil =>
      rw [show combineInsert [] t a = [(t, a)] from rfl, lookupVal_cons]
      by_cases h : typ.source = t.source
      · rw [if_pos h, if_pos h]
        rfl
      · rw [if_neg h, if_neg h]
  | cons hd tl ih =>
      obtain ⟨t', a'⟩ := hd
      rw [List.pairwise_cons] at hs
      obtain ⟨hhd, htl⟩ := hs
      by_cases h1 : t.source = t'.source
      · rw [combineInsert, if_pos h1, lookupVal_cons]
        by_cases h2 : typ.source = t'.source
        · rw [if_pos h2, if_pos (h2.trans h1.symm), lookupVal_cons, if_pos h2]
          rfl
        · rw [if_neg h2, if_neg (fun hc => h2 (hc.trans h1)),
            lookupVal_cons, if_neg h2]
      · rw [combineInsert, if_neg h1]
        by_cases h2 : t.source < t'.source
        · rw [if_pos h2, lookupVal_cons]
          by_cases h3 : typ.source = t.source
          · have hnone : lookupVal typ ((t', a') :: tl) = none := by
              refine lookupVal_eq_none typ _ ?_
              intro x hx
              rcases List.mem_cons.mp hx with h4 | h4
              · subst h4
                rw [h3]
                exact ne_of_lt h2
              · rw [h3]
                exact ne_of_lt (h2.trans (hhd x h4))
            rw [if_pos h3, if_pos h3, hnone]
            rfl
          · rw [if_neg h3, if_neg h3]
        · rw [if_neg h2, lookupVal_cons]
          have h6 : t'.source < t.source :=
            lt_of_le_of_ne (le_of_not_lt h2) fun hc => h1 hc.symm
          by_cases h4 : typ.source = t'.source
          · have h5 : ¬ typ.source = t.source := by
              rw [h4]
              exact ne_of_lt h6
            rw [if_pos h4, if_neg h5, lookupVal_cons, if_pos h4]
          · rw [if_neg h4, ih htl]
            by_cases h5 : typ.source = t.source
            · rw [if_pos h5, if_pos h5, lookupVal_cons, if_neg h4]
            · rw [if_neg h5, if_neg h5, lookupVal_cons, if_neg h4]

theorem foldl_omax_pull (l : List ℤ) (a b : Option ℤ) :
    l.foldl (fun o x => omax o (some x)) (omax a b) =
      omax a (l.foldl (fun o x => omax o (some x)) b) := by
  induction l generalizing b with
  | nil => rfl
  | cons x xs ih =>
      simp only [List.foldl_cons]
      rw [omax_assoc]
      exact ih (omax b (some x))

theorem lookupVal_fold (contribs : List (InfluenceType × ℤ))
    (acc : List (InfluenceType × ℤ)) (typ : InfluenceType)
    (hs : acc.Pairwise srcLt) :
    lookupVal typ (contribs.foldl (fun c p => combineInsert c p.1 p.2) acc) =
      omax (lookupVal typ acc) (maxContribution typ contribs) := by
  induction contribs generalizing acc with
  | nil =>
      simp [maxContribution, amountsAt, omax_none_right]
  | cons hd tl ih =>
      obtain ⟨t, amt⟩ := hd
      simp only [List.foldl_cons]
      rw [ih (combineInsert acc t amt) (combineInsert_pairwise acc t amt hs)]
      rw [lookupVal_combineInsert acc t amt typ hs]
      by_cases h : typ.source = t.source
      · rw [if_pos h]
        have hstep : maxContribution typ ((t, amt) :: tl) =
            omax (some amt) (maxContribution typ tl) := by
          unfold maxContribution amountsAt
          rw [List.filter_cons, if_pos (by simpa using h.symm)]
          simp only [List.map_cons, List.foldl_cons]
          have : omax none (some amt) = omax (some amt) none := by
            simp [omax, omax_none_right]
          rw [show (omax none (some amt)) = omax (some amt) none from this,
            foldl_omax_pull]
        rw [hstep, omax_assoc]
      · rw [if_neg h]
        have hstep : maxContribution typ ((t, amt) :: tl) =
            maxContribution typ tl := by
          unfold maxContribution amountsAt
          rw [List.filter_cons, if_neg (by simpa using fun hc => h hc.symm)]
        rw [hstep]

theorem influencesOf_propagate (sites : SitesE)
    (sources : List (ℕ × List (InfluenceType × ℤ))) (id : ℕ)
    (hid : ∃ p ∈ sites.entries, p.1 = id) :
    influencesOf (propagate_influences sites sources) id =
      combine (contributions sites sources id) := by
  suffices haux : ∀ l : List (ℕ × SiteE), (∃ p ∈ l, p.1 = id) →
      (((l.map (fun p =>
          (p.1, { p.2 with
            influences := combine (contributions sites sources p.1) }))).find?
        (fun p => p.1 = id)).map (fun p => p.2.influences)).getD [] =
      combine (contributions sites sources id) from haux sites.entries hid
  intro l hl
  induction l with
  | nil =>
      obtain ⟨p, hp, _⟩ := hl
      exact absurd hp (List.not_mem_nil p)
  | cons hd rest ih =>
      by_cases hi : hd.1 = id
      · rw [List.map_cons, List.find?_cons_of_pos _ (by simpa using hi)]
        simp [hi]
      · rw [List.map_cons, List.find?_cons_of_neg _ (by simpa using hi)]
        apply ih
        obtain ⟨p, hp, hp1⟩ := hl
        rcases List.mem_cons.mp hp with h | h
        · exact absurd (h ▸ hp1) hi
        · exact ⟨p, h, hp1⟩

/-- C7: in each influence propagation pass, a neighbour-carried Market
contribution is decayed to `round(amount × (1 − 0.3))` (for nonnegative
amounts the trailing `.max(0.)` of the source is the identity), and the
site's replaced influence list holds, for every `(kind, source)` key,
the maximum over all contributions with that key that arrived at the
site — never their sum. -/
theorem C7_decay_and_max_combine (x : ℤ) (d : ℚ) (sites : SitesE)
    (sources : List (ℕ × List (InfluenceType × ℤ))) (typ : InfluenceType)
    (id : ℕ) (hx : 0 ≤ x) (hid : ∃ p ∈ sites.entries, p.1 = id) :
    decay .Market x d = rustRound ((x : ℚ) * (1 - 3/10)) ∧
    lookupVal typ (influencesOf (propagate_influences sites sources) id) =
      maxContribution typ (contributions sites sources id) := by
  constructor
  · unfold decay
    have h1 : (x : ℚ) - (x : ℚ) * (3/10) = (x : ℚ) * (1 - 3/10) := by ring
    simp only [h1]
    have h2 : (0 : ℚ) ≤ (x : ℚ) * (1 - 3/10) := by
      have hx' : (0 : ℚ) ≤ (x : ℚ) := Int.cast_nonneg.mpr hx
      nlinarith
    exact max_eq_left (rustRound_nonneg h2)
  · rw [influencesOf_propagate sites sources id hid]
    exact lookupVal_fold _ [] typ List.Pairwise.nil

def demoSites : SitesE where
  entries :=
    [(0, { neighbours := [(1, 1)], influences := [] }),
     (1, { neighbours := [(0, 1)], influences := [(⟨.Market, 7⟩, 10)] })]
  distances := [((0, 1), 1)]

def demoSources : List (ℕ × List (InfluenceType × ℤ)) :=
  [(0, [(⟨.Market, 7⟩, 4)])]

theorem C7_decay_and_max_combine_witness :
    decay .Market 10 1 = rustRound ((10 : ℚ) * (1 - 3/10)) ∧
    lookupVal ⟨.Market, 7⟩
        (influencesOf (propagate_influences demoSites demoSources) 0) =
      maxContribution ⟨.Market, 7⟩ (contributions demoSites demoSources 0) :=
  C7_decay_and_max_combine 10 1 demoSites demoSources ⟨.Market, 7⟩ 0
    (by norm_num)
    ⟨(0, { neighbours := [(1, 1)], influences := [] }), by
      simp [demoSites], rfl⟩

/-! ## Movement integration (`move_to_next_coord`, tick.rs lines 545-589;
`Sites::distance`, sites.rs lines 124-134)

The `f32` values flowing through the movement step can be IEEE special
values (a disconnected pair's distance is `INFINITY`; dividing by a zero
distance produces an infinity; `0.0/0.0` is NaN), so they are embedded as
an extended value type `FVal` with IEEE division, multiplication,
addition, comparison and clamping on the relevant cases.  `ℚ` has no
negative zero; all quantities passed here are nonnegative, where the
distinction does not arise. -/

inductive FVal where
  | fin (q : ℚ)
  | pinf
  | ninf
  | nan
  deriving Repr, DecidableEq

def fdiv : FVal → FVal → FVal
  | .nan, _ => .nan
  | .fin _, .nan => .nan
  | .pinf, .nan => .nan
  | .ninf, .nan => .nan
  | .fin x, .fin y =>
      if y = 0 then (if x = 0 then .nan else if 0 < x then .pinf else .ninf)
      else .fin (x / y)
  | .fin _, .pinf => .fin 0
  | .fin _, .ninf => .fin 0
  | .pinf, .fin y => if 0 ≤ y then .pinf else .ninf
  | .ninf, .fin y => if 0 ≤ y then .ninf else .pinf
  | .pinf, .pinf => .nan
  | .pinf, .ninf => .nan
  | .ninf, .pinf => .nan
  | .ninf, .ninf => .nan

def fmul : FVal → FVal → FVal
  | .nan, _ => .nan
  | .fin _, .nan => .nan
  | .pinf, .nan => .nan
  | .ninf, .nan => .nan
  | .fin x, .fin y => .fin (x * y)
  | .fin x, .pinf => if x = 0 then .nan else if 0 < x then .pinf else .ninf
  | .fin x, .ninf => if x = 0 then .nan else if 0 < x then .ninf else .pinf
  | .pinf, .fin y => if y = 0 then .nan else if 0 < y then .pinf else .ninf
  | .ninf, .fin y => if y = 0 then .nan else if 0 < y then .ninf else .pinf
  | .pinf, .pinf => .pinf
  | .pinf, .ninf => .ninf
  | .ninf, .pinf => .ninf
  | .ninf, .ninf => .pinf

def fadd : FVal → FVal → FVal
  | .nan, _ => .nan
  | .fin _, .nan => .nan
  | .pinf, .nan => .nan
  | .ninf, .nan => .nan
  | .fin x, .fin y => .fin (x + y)
  | .fin _, .pinf => .pinf
  | .fin _, .ninf => .ninf
  | .pinf, .fin _ => .pinf
  | .ninf, .fin _ => .ninf
  | .pinf, .pinf => .pinf
  | .ninf, .ninf => .ninf
  | .pinf, .ninf => .nan
  | .ninf, .pinf => .nan

/-- IEEE `==`: NaN compares unequal to everything, including itself. -/
def feq : FVal → FVal → Bool
  | .fin x, .fin y => x = y
  | .pinf, .pinf => true
  | .ninf, .ninf => true
  | _, _ => false

/-- `f32::clamp(0., 1.)`: NaN stays NaN, the infinities land on the
nearest bound. -/
def fclamp01 : FVal → FVal
  | .nan => .nan
  | .pinf => .fin 1
  | .ninf => .fin 0
  | .fin x => .fin (rclamp x 0 1)

/-- `Sites::distance` (sites.rs lines 124-134): `0` for equal ids, the
cached pair distance keyed by `(min, max)`, `f32::INFINITY` when the pair
was never connected. -/
def SitesE.distance (sites : SitesE) (id1 id2 : ℕ) : FVal :=
  if id1 = id2 then .fin 0
  else
    let a := min id1 id2
    let b := max id1 id2
    match sites.distances.find? (fun p => p.1 = (a, b)) with
    | some p => .fin p.2
    | none => .pinf

/-- Modelled from the spec: `ColinearPair` and `GridCoord::as_colinear`
are used by `move_to_next_coord` (tick.rs lines 555-560) but their
definitions are absent from the provided sources; per spec §4.1 the pair
`{start, end, t1, t2}` expresses two colinear grid coordinates over one
ordered site pair (`endp` stands for the Rust field `end`). -/
structure ColinearPair where
  start : ℕ
  endp : ℕ
  t1 : ℚ
  t2 : ℚ
  deriving Repr, DecidableEq

/-- Modelled from the spec: `GridCoord::as_colinear` returns the common
`ColinearPair` of two colinear coordinates (spec §3: colinear means the
same unordered site pair, or one is an endpoint of the other's pair),
`none` otherwise. -/
def as_colinear (pos dest : GridCoord) : Option ColinearPair :=
  match pos, dest with
  | .At x, .At y => if x = y then some ⟨x, y, 0, 0⟩ else none
  | .At x, .Between a b t =>
      if x = a then some ⟨a, b, 0, t⟩
      else if x = b then some ⟨a, b, 1, t⟩ else none
  | .Between a b t, .At y =>
      if y = a then some ⟨a, b, t, 0⟩
      else if y = b then some ⟨a, b, t, 1⟩ else none
  | .Between a b t, .Between a2 b2 t2 =>
      if a = a2 ∧ b = b2 then some ⟨a, b, t, t2⟩ else none

/-- `const BASE_SPEED: f32 = 0.01;` -/
def BASE_SPEED : ℚ := 1/100

/-- The `t_speed` computation of `move_to_next_coord` (tick.rs lines
571-575): `if speed / distance == 0.0 { 0.0 } else { speed / distance }`. -/
def t_speed_of (speed distance : FVal) : FVal :=
  if feq (fdiv speed distance) (.fin 0) then .fin 0 else fdiv speed distance

/-- Canonical-form invariant of a party position: `Between` coordinates
produced by `with_triple`/`between` have ordered endpoints and an interior
parameter. -/
def GridCoord.wf : GridCoord → Prop
  | .At _ => True
  | .Between a b t => a < b ∧ 0 < t ∧ t < 1

/-- The per-party body of `move_to_next_coord` (tick.rs lines 548-582):
result `none` models the panics (`as_colinear(..).unwrap()` on
non-colinear inputs, and the `assert!` inside `GridCoord::between`
when the clamped parameter is NaN). -/
def move_to_next_coord (sites : SitesE) (position : GridCoord)
    (movement_speed : ℚ) : Option GridCoord → Option GridCoord
  | none => some position
  | some destination =>
      match as_colinear position destination with
      | none => none
      | some pair =>
          let t_direction := rsignum (pair.t2 - pair.t1)
          let distance := sites.distance pair.start pair.endp
          let speed : FVal := .fin (movement_speed * BASE_SPEED)
          let t_speed :=
            if feq (fdiv speed (sites.distance pair.start pair.endp)) (.fin 0)
            then FVal.fin 0 else fdiv speed distance
          let delta_t := fmul t_speed (.fin t_direction)
          match fclamp01 (fadd (.fin pair.t1) delta_t) with
          | .fin next_t => GridCoord.with_triple pair.start pair.endp next_t
          | _ => none

theorem t_speed_of_eq_fdiv (s d : FVal) : t_speed_of s d = fdiv s d := by
  unfold t_speed_of
  cases h : fdiv s d with
  | fin q =>
      by_cases hq : q = 0
      · subst hq
        simp [feq]
      · simp [feq, hq]
  | pinf => simp [feq]
  | ninf => simp [feq]
  | nan => simp [feq]

theorem with_triple_as_colinear (pos dest : GridCoord) (pair : ColinearPair)
    (hwf : pos.wf) (hcol : as_colinear pos dest = some pair) :
    0 ≤ pair.t1 ∧ pair.t1 ≤ 1 ∧
      GridCoord.with_triple pair.start pair.endp pair.t1 = some pos := by
  cases pos with
  | At x =>
      cases dest with
      | At y =>
          by_cases hxy : x = y
          · rw [as_colinear, if_pos hxy] at hcol
            injection hcol with hp
            subst hp
            refine ⟨le_refl 0, by norm_num, ?_⟩
            simp [GridCoord.with_triple]
          · rw [as_colinear, if_neg hxy] at hcol
            exact absurd hcol (by simp)
      | Between a b t =>
          by_cases hxa : x = a
          · rw [as_colinear, if_pos hxa] at hcol
            injection hcol with hp
            subst hp
            refine ⟨le_refl 0, by norm_num, ?_⟩
            simp [GridCoord.with_triple, hxa]
          · rw [as_colinear, if_neg hxa] at hcol
            by_cases hxb : x = b
            · rw [if_pos hxb] at hcol
              injection hcol with hp
              subst hp
              refine ⟨by norm_num, le_refl 1, ?_⟩
              simp [GridCoord.with_triple, hxb]
            · rw [if_neg hxb] at hcol
              exact absurd hcol (by simp)
  | Between a b t =>
      obtain ⟨hab, ht0, ht1⟩ := hwf
      have hkey : ∀ t2 : ℚ, pair = ⟨a, b, t, t2⟩ →
          0 ≤ pair.t1 ∧ pair.t1 ≤ 1 ∧
            GridCoord.with_triple pair.start pair.endp pair.t1 =
              some (GridCoord.Between a b t) := by
        intro t2 hp
        subst hp
        refine ⟨ht0.le, ht1.le, ?_⟩
        rw [GridCoord.with_triple]
        rw [if_neg (ne_of_gt ht0), if_neg (ne_of_lt ht1)]
        simp only [min_eq_left hab.le, max_eq_right hab.le, if_pos rfl]
        rw [GridCoord.between, if_neg (not_not_intro ⟨ht0.le, ht1.le⟩),
          if_neg (Nat.ne_of_lt hab), if_pos hab]
        simp
      cases dest with
      | At y =>
          by_cases hya : y = a
          · rw [as_colinear, if_pos hya] at hcol
            injection hcol with hp
            exact hkey 0 hp.symm
          · rw [as_colinear, if_neg hya] at hcol
            by_cases hyb : y = b
            · rw [if_pos hyb] at hcol
              injection hcol with hp
              exact hkey 1 hp.symm
            · rw [if_neg hyb] at hcol
              exact absurd hcol (by simp)
      | Between a2 b2 t2 =>
          by_cases hm : a = a2 ∧ b = b2
          · rw [as_colinear, if_pos hm] at hcol
            injection hcol with hp
            exact hkey t2 hp.symm
          · rw [as_colinear, if_neg hm] at hcol
            exact absurd hcol (by simp)

/-- C4 (amended): during movement integration `t_speed` always equals
`speed / distance` under IEEE arithmetic (the guard's two branches yield
the same value); when the colinear pair's distance is infinite
(disconnected or missing site) the step is `0` and the party's position
is unchanged.  The claim's zero-distance case is refuted separately: a
zero distance makes `t_speed` infinite, not `0`. -/
theorem C4_movement_t_speed (sites : SitesE) (pos dest : GridCoord) (ms : ℚ)
    (pair : ColinearPair) (s d : FVal)
    (hwf : pos.wf) (hcol : as_colinear pos dest = some pair)
    (hinf : sites.distance pair.start pair.endp = .pinf) :
    t_speed_of s d = fdiv s d ∧
    t_speed_of (.fin (ms * BASE_SPEED))
      (sites.distance pair.start pair.endp) = .fin 0 ∧
    move_to_next_coord sites pos ms (some dest) = some pos := by
  refine ⟨t_speed_of_eq_fdiv s d, ?_, ?_⟩
  · rw [hinf]
    simp [t_speed_of, fdiv, feq]
  · obtain ⟨h0, h1, hrt⟩ := with_triple_as_colinear pos dest pair hwf hcol
    have hcl : rclamp pair.t1 0 1 = pair.t1 := by
      unfold rclamp
      rw [if_neg (not_lt_of_ge h0), if_neg (not_lt_of_ge h1)]
    simp [move_to_next_coord, hcol, hinf, fdiv, feq, fmul, fadd, fclamp01,
      hcl, hrt]

/-- Two connected sites that share a position: `connect` caches their
Euclidean distance `0`. -/
def zeroDistSites : SitesE where
  entries :=
    [(0, { neighbours := [(1, 0)], influences := [] }),
     (1, { neighbours := [(0, 0)], influences := [] })]
  distances := [((0, 1), 0)]

/-- C4 counterexample: with a cached distance of `0` between two distinct
connected sites and movement speed `2`, `t_speed` is `+∞` — not `0` as
the claim states — and the clamped step teleports the party from the
middle of the edge to an endpoint instead of leaving it in place. -/
theorem C4_zero_distance_counterexample :
    zeroDistSites.distance 0 1 = .fin 0 ∧
    t_speed_of (.fin (2 * BASE_SPEED)) (zeroDistSites.distance 0 1) = .pinf ∧
    t_speed_of (.fin (2 * BASE_SPEED)) (zeroDistSites.distance 0 1) ≠ .fin 0 ∧
    move_to_next_coord zeroDistSites (.Between 0 1 (1/2)) 2 (some (.At 0)) =
      some (.At 0) ∧
    some (GridCoord.At 0) ≠ some (GridCoord.Between 0 1 (1/2)) := by
  have hdist : zeroDistSites.distance 0 1 = .fin 0 := by
    norm_num [SitesE.distance, zeroDistSites, List.find?]
  refine ⟨hdist, ?_, ?_, ?_, by simp⟩
  · rw [hdist]
    norm_num [t_speed_of, fdiv, feq, BASE_SPEED]
  · rw [hdist]
    norm_num [t_speed_of, fdiv, feq, BASE_SPEED]
    decide
  · norm_num [move_to_next_coord, as_colinear, hdist, t_speed_of, fdiv, feq,
      BASE_SPEED, rsignum, fmul, fadd, fclamp01, rclamp,
      GridCoord.with_triple, GridCoord.between]

/-- Two sites with no recorded connection, for the infinite-distance
witness. -/
def discSites : SitesE where
  entries :=
    [(0, { neighbours := [], influences := [] }),
     (2, { neighbours := [], influences := [] })]
  distances := []

theorem C4_movement_t_speed_witness :
    t_speed_of (.fin 1) (.fin 2) = fdiv (.fin 1) (.fin 2) ∧
    t_speed_of (.fin (2 * BASE_SPEED)) (discSites.distance 0 2) = .fin 0 ∧
    move_to_next_coord discSites (.At 0) 2 (some (.Between 0 2 (1/2))) =
      some (.At 0) :=
  C4_movement_t_speed discSites (.At 0) (.Between 0 2 (1/2)) 2
    ⟨0, 2, 0, 1/2⟩ (.fin 1) (.fin 2) trivial
    (by norm_num [as_colinear])
    (by norm_num [SitesE.distance, discSites, List.find?])

/-! ## A* pathfinding (`Sites::astar`, sites.rs lines 136-158)

`Sites::astar` scales each `f32` edge distance to an integer cost
(`metric`), delegates to the external `pathfinding` crate's A* search,
and scales the returned total back (`from_metric`). -/

/-- `const RATE: f32 = 1000.;` with `fn metric(x) { (x * RATE).round() as i64 }`. -/
def metric (x : ℚ) : ℤ := rustRound (x * 1000)

/-- `fn from_metric(x) { x as f32 / RATE }`. -/
def from_metric (x : ℤ) : ℚ := (x : ℚ) / 1000

def siteIds (sites : SitesE) : List ℕ := sites.entries.map Prod.fst

/-- The stored distance of the directed neighbour entry `a → b`
(`self.neighbours(site)` supplies `(s, d)` pairs to the search). -/
def neighbourDist (sites : SitesE) (a b : ℕ) : Option ℚ :=
  ((neighboursOf sites a).find? (fun p => p.1 = b)).map Prod.snd

/-- Every consecutive pair of the node sequence is an edge of the graph. -/
def edgesOk (sites : SitesE) : List ℕ → Bool
  | a :: b :: rest => (neighbourDist sites a b).isSome && edgesOk sites (b :: rest)
  | _ => true

/-- A simple route of the graph from `s` to `e`: starts at `s`, ends at
`e`, follows edges, visits no site twice, and stays on the graph's
sites. -/
def isRoute (sites : SitesE) (s e : ℕ) (l : List ℕ) : Prop :=
  l.head? = some s ∧ l.getLast? = some e ∧ edgesOk sites l = true ∧
    l.Nodup ∧ ∀ x ∈ l, x ∈ siteIds sites

instance (sites : SitesE) (s e : ℕ) (l : List ℕ) :
    Decidable (isRoute sites s e l) := by
  unfold isRoute
  exact inferInstance

/-- The total integer (`metric`) cost of a node sequence. -/
def pathCostM (sites : SitesE) : List ℕ → ℤ
  | a :: b :: rest =>
      metric ((neighbourDist sites a b).getD 0) + pathCostM sites (b :: rest)
  | _ => 0

/-- The true sum of the `f32` edge distances of a node sequence — the
quantity the claim says the reported cost equals. -/
def pathCostQ (sites : SitesE) : List ℕ → ℚ
  | a :: b :: rest =>
      ((neighbourDist sites a b).getD 0) + pathCostQ sites (b :: rest)
  | _ => 0

/-- All lists over `ids` of length at most `n`. -/
def listsUpTo (ids : List ℕ) : ℕ → List (List ℕ)
  | 0 => [[]]
  | n + 1 =>
      [[]] ++ ids.flatMap (fun a => (listsUpTo ids n).map (fun l => a :: l))

/-- All simple routes from `s` to `e`: lists over the site ids of length
at most the number of sites, filtered by the route predicate. -/
def candidateRoutes (sites : SitesE) (s e : ℕ) : List (List ℕ) :=
  (listsUpTo (siteIds sites) (siteIds sites).length).filter
    (fun l => decide (isRoute sites s e l))

theorem mem_listsUpTo (ids : List ℕ) :
    ∀ (n : ℕ) (l : List ℕ), l.length ≤ n → (∀ x ∈ l, x ∈ ids) →
      l ∈ listsUpTo ids n := by
  intro n
  induction n with
  | zero =>
      intro l hlen _
      rw [Nat.le_zero] at hlen
      rw [List.length_eq_zero] at hlen
      subst hlen
      simp [listsUpTo]
  | succ n ih =>
      intro l hlen hsub
      cases l with
      | nil => simp [listsUpTo]
      | cons a t =>
          have ha : a ∈ ids := hsub a (List.mem_cons_self a t)
          have ht : t ∈ listsUpTo ids n :=
            ih t (by simpa using hlen)
              (fun x hx => hsub x (List.mem_cons_of_mem a hx))
          unfold listsUpTo
          rw [List.mem_append, List.mem_flatMap]
          exact Or.inr ⟨a, ha, List.mem_map.mpr ⟨t, ht, rfl⟩⟩

/-- Modelled from the spec: the A* search itself lives in the external
`pathfinding` crate, absent from the repository; per the spec it runs
over site ids on the integer-scaled edge costs and "returns the node
sequence and total cost, or none if unreachable".  Modelled as exact
minimization of the integer cost over all simple routes (first minimum
on ties). -/
def astarSearch (sites : SitesE) (s e : ℕ) : Option (List ℕ × ℤ) :=
  ((candidateRoutes sites s e).argmin (pathCostM sites)).map
    (fun l => (l, pathCostM sites l))

/-- `Sites::astar`: the search on `metric` costs, with the total scaled
back through `from_metric`. -/
def astar (sites : SitesE) (s e : ℕ) : Option (List ℕ × ℚ) :=
  (astarSearch sites s e).map (fun p => (p.1, from_metric p.2))

theorem mem_candidateRoutes_of_isRoute (sites : SitesE) (s e : ℕ)
    (l : List ℕ) (h : isRoute sites s e l) :
    l ∈ candidateRoutes sites s e := by
  obtain ⟨h1, h2, h3, h4, h5⟩ := h
  unfold candidateRoutes
  rw [List.mem_filter]
  constructor
  · have hlen : l.length ≤ (siteIds sites).length :=
      (h4.subperm (fun x hx => h5 x hx)).length_le
    exact mem_listsUpTo (siteIds sites) (siteIds sites).length l hlen h5
  · exact decide_eq_true ⟨h1, h2, h3, h4, h5⟩

/-- C6 (amended): `astar` reports the route's cost as
`(Σ round(1000 × dᵢ)) / 1000` over the returned node sequence — the
integer-scaled metric, not the raw sum of edge distances — the returned
route minimizes that integer metric among all simple routes, and an
unreachable end yields `none`. -/
theorem C6_astar_rounded_metric (sites : SitesE) (s e : ℕ)
    (route : List ℕ) (c : ℚ)
    (hsome : astar sites s e = some (route, c)) :
    (astar sites s e = none → ∀ l, ¬ isRoute sites s e l) ∧
    isRoute sites s e route ∧
    c = from_metric (pathCostM sites route) ∧
    ∀ l, isRoute sites s e l →
      pathCostM sites route ≤ pathCostM sites l := by
  have hnone : astar sites s e = none → ∀ l, ¬ isRoute sites s e l := by
    intro hn l hl
    have hmem := mem_candidateRoutes_of_isRoute sites s e l hl
    unfold astar astarSearch at hn
    rcases hopt : (candidateRoutes sites s e).argmin (pathCostM sites)
      with _ | m
    · rw [List.argmin_eq_none] at hopt
      rw [hopt] at hmem
      exact (List.not_mem_nil l) hmem
    · rw [hopt] at hn
      simp at hn
  refine ⟨hnone, ?_⟩
  unfold astar astarSearch at hsome
  rcases hopt : (candidateRoutes sites s e).argmin (pathCostM sites)
    with _ | m
  · rw [hopt] at hsome
    simp at hsome
  · rw [hopt] at hsome
    simp only [Option.map_some', Option.some_inj] at hsome
    obtain ⟨hr, hc⟩ := Prod.ext_iff.mp hsome
    have hmm : m ∈ (candidateRoutes sites s e).argmin (pathCostM sites) :=
      Option.mem_def.mpr hopt
    have hmem := List.argmin_mem hmm
    have hroute : isRoute sites s e m :=
      of_decide_eq_true (List.mem_filter.mp hmem).2
    subst hr
    refine ⟨hroute, hc.symm, ?_⟩
    intro l hl
    exact List.le_of_mem_argmin
      (mem_candidateRoutes_of_isRoute sites s e l hl) hmm

/-- A two-site graph whose single edge has distance `0.0012`:
`metric` rounds `1.2` to `1`. -/
def tinySites : SitesE where
  entries :=
    [(0, { neighbours := [(1, 3/2500)], influences := [] }),
     (1, { neighbours := [(0, 3/2500)], influences := [] })]
  distances := [((0, 1), 3/2500)]

theorem candidateRoutes_tinySites : candidateRoutes tinySites 0 1 = [[0, 1]] := by
  decide

theorem pathCostM_tinySites : pathCostM tinySites [0, 1] = 1 := by
  have h1 : neighbourDist tinySites 0 1 = some (3/2500) := by
    norm_num [neighbourDist, neighboursOf, tinySites, List.find?]
  simp [pathCostM, h1, metric, rustRound]
  norm_num

theorem astar_tinySites_eval : astar tinySites 0 1 = some ([0, 1], 1/1000) := by
  unfold astar astarSearch
  rw [candidateRoutes_tinySites, List.argmin_singleton]
  simp [pathCostM_tinySites, from_metric]

/-- C6 counterexample: on `tinySites` the returned route `[0, 1]` has a
reported cost of `0.001` (the rounded metric) while the sum of the edge
distances along it is `0.0012`; the claimed equality fails. -/
theorem C6_cost_not_edge_sum :
    astar tinySites 0 1 = some ([0, 1], 1/1000) ∧
    pathCostQ tinySites [0, 1] = 3/2500 ∧
    (1 : ℚ)/1000 ≠ 3/2500 := by
  refine ⟨astar_tinySites_eval, ?_, by norm_num⟩
  have h1 : neighbourDist tinySites 0 1 = some (3/2500) := by
    norm_num [neighbourDist, neighboursOf, tinySites, List.find?]
  simp [pathCostQ, h1]

theorem C6_astar_rounded_metric_witness :
    (astar tinySites 0 1 = none → ∀ l, ¬ isRoute tinySites 0 1 l) ∧
    isRoute tinySites 0 1 [0, 1] ∧
    (1 : ℚ)/1000 = from_metric (pathCostM tinySites [0, 1]) ∧
    ∀ l, isRoute tinySites 0 1 l →
      pathCostM tinySites [0, 1] ≤ pathCostM tinySites l :=
  C6_astar_rounded_metric tinySites 0 1 [0, 1] (1/1000) astar_tinySites_eval

end Bronzemarch
